import Mathlib

/-!
Verification development for the PyLith Python scaffolding layer:
field containers (`pylith/topology/Field.py`), the boundary-condition
family (`pylith/bc`), the output pipeline (vertex/cell filters, VTK
writers, output managers) and the meshio test harness
(`unittests/pytests/meshio/testmeshio.py`).

The compiled numerics engine (PETSc-backed module classes) is not part
of the visible Python sources; where a claim depends on its behaviour,
the corresponding Lean definition is modelled from the specification
and its doc comment says so explicitly.  Definitions whose doc comment
does not say `Modelled from the spec` are shallow embeddings of the
Python source.
-/

/- ------------------------------------------------------------------ -/
/- Field storage and deallocation (pylith/topology/Field.py)          -/
/- ------------------------------------------------------------------ -/

/-- A per-point value of a distributed field: a list of real components
(scalar fields have one component, vector fields several). -/
abbrev PointValue := List ℝ

/-- State of a `MeshField` (Python class `MeshField(ModuleMeshField)`):
a field over vertices or cells of a finite-element mesh, holding an
opaque mesh reference and an optional storage handle.  The handle is
`some` while PETSc/local data structures are allocated and `none` once
they have been released. -/
structure MeshField where
  mesh : Nat
  storage : Option (List PointValue)

/-- State of a `SubMeshField` (Python class `SubMeshField(ModuleSubMeshField)`):
the same shape of state as `MeshField`, over a lower-dimension mesh. -/
structure SubMeshField where
  mesh : Nat
  storage : Option (List PointValue)

/-- Modelled from the spec: the compiled module's `deallocate()` is not in
the visible sources; per the spec it "releases storage; idempotent (a
second call is a no-op, not an error)".  It is a total function on field
state (it never raises), and it clears the storage handle. -/
def MeshField.deallocate (f : MeshField) : MeshField :=
  { f with storage := none }

/-- Modelled from the spec: `deallocate()` for the sub-mesh variant,
identical contract to `MeshField.deallocate`. -/
def SubMeshField.deallocate (f : SubMeshField) : SubMeshField :=
  { f with storage := none }

/-- Embedding of `MeshField.cleanup` from `pylith/topology/Field.py`
lines 39-44: the body is exactly `self.deallocate()`. -/
def MeshField.cleanup (f : MeshField) : MeshField :=
  f.deallocate

/-- Embedding of `SubMeshField.cleanup` from `pylith/topology/Field.py`
lines 65-70: the body is exactly `self.deallocate()`. -/
def SubMeshField.cleanup (f : SubMeshField) : SubMeshField :=
  f.deallocate

/- ------------------------------------------------------------------ -/
/- TestApp.main control flow (unittests/pytests/meshio/testmeshio.py) -/
/- ------------------------------------------------------------------ -/

/-- The three manager-level statements executed by `TestApp.main`:
`manager.initialize()`, `unittest.TextTestRunner(...).run(self._suite())`
and `manager.finalize()`. -/
inductive MainCall where
  | initCall
  | runSuite
  | finalizeCall
deriving Repr, DecidableEq

/-- Straight-line Python statement-sequence semantics: each statement is
a label paired with a flag saying whether executing it raises.  The
statements run in order; a raising statement is still entered (so it
appears in the trace) but every later statement is skipped, and the
second component reports whether the sequence completed normally. -/
def runStmts : List (MainCall × Bool) → List MainCall × Bool
  | [] => ([], true)
  | (c, raises) :: rest =>
    if raises then ([c], false)
    else
      let r := runStmts rest
      (c :: r.1, r.2)

/-- Embedding of the statement list of `TestApp.main`
(`testmeshio.py` lines 36-47): `manager.initialize()`, then running the
test suite, then `manager.finalize()`, with no `try`/`except`/`finally`
anywhere in the body.  Only the suite run can raise (parametrised by
`suiteRaises`). -/
def TestApp.mainStmts (suiteRaises : Bool) : List (MainCall × Bool) :=
  [(MainCall.initCall, false), (MainCall.runSuite, suiteRaises),
   (MainCall.finalizeCall, false)]

/-- Execution trace of `TestApp.main`: the manager calls actually
performed, and whether `main` returned normally. -/
def TestApp.mainRun (suiteRaises : Bool) : List MainCall × Bool :=
  runStmts (TestApp.mainStmts suiteRaises)

/- ------------------------------------------------------------------ -/
/- DirichletTimeDependent boundary conditions (pylith/bc)             -/
/- ------------------------------------------------------------------ -/

/-- Field values for boundary-condition application: the per-point value
store of a distributed field, indexed by point identifier. -/
abbrev FieldVals := Nat → PointValue

/-- Modelled from the spec: a `DirichletTimeDependent` boundary condition
(named in `pylith/bc/__init__.py` but implemented in the compiled
module): a target sub-domain (set of point identifiers), the indices of
the constrained components, and a spatial/temporal database queried as
`database.evaluate(position, time)`. -/
structure DirichletTimeDependent where
  subDomain : List Nat
  constrainedComponents : List Nat
  database : Nat → ℝ → ℝ

/-- Overwrite the listed components of a point value with `v`, leaving
the other components in place. -/
def setComponents (comps : List Nat) (v : ℝ) (xs : PointValue) : PointValue :=
  xs.mapIdx (fun i x => if i ∈ comps then v else x)

/-- Modelled from the spec: `DirichletTimeDependent.apply` "overwrites
the constrained components of `field` on `subDomain` with values
obtained from `database.evaluate(position, time)` for every point in
the sub-domain, every call"; points outside the sub-domain are not
touched. -/
def DirichletTimeDependent.apply (bc : DirichletTimeDependent)
    (f : FieldVals) (t : ℝ) : FieldVals :=
  fun p =>
    if p ∈ bc.subDomain then
      setComponents bc.constrainedComponents (bc.database p t) (f p)
    else
      f p

/-- Apply a list of boundary conditions to a field in caller-specified
list order (earlier conditions first, later conditions last). -/
def applyAll (bcs : List DirichletTimeDependent) (f : FieldVals) (t : ℝ) :
    FieldVals :=
  bcs.foldl (fun g bc => bc.apply g t) f

/-- Two boundary conditions have disjoint target sub-domains. -/
def SubDisjoint (a b : DirichletTimeDependent) : Prop :=
  ∀ p, p ∈ a.subDomain → p ∉ b.subDomain

/- ------------------------------------------------------------------ -/
/- Field filters (VertexNormFilter, CellAverageFilter)                -/
/- ------------------------------------------------------------------ -/

/-- The two domain variants a distributed field can live on: the full
mesh, or a boundary sub-mesh (`MeshField` versus `SubMeshField` in
`pylith/topology/Field.py`). -/
inductive DomainVariant where
  | fullMesh
  | subMesh
deriving Repr, DecidableEq

/-- A distributed field as consumed by the output filters: the domain
variant carrying it, the number of components per point (1 = scalar,
2 or more = vector), and the per-point values. -/
structure DistributedField where
  variant : DomainVariant
  fiberDim : Nat
  values : List PointValue

/-- Errors raised by the filter family. -/
inductive FilterError where
  | typeConflict
deriving Repr, DecidableEq

/-- Euclidean norm of a point value: the nonnegative square root of the
sum of the squares of the components. -/
noncomputable def vertexNorm (v : PointValue) : ℝ :=
  Real.sqrt ((v.map fun x => x ^ 2).sum)

/-- Modelled from the spec: `VertexNormFilter.apply` (class
`VertexFilterVecNorm`, only its tests are visible): for each vertex the
output scalar is the Euclidean norm of the vector components at that
vertex; it is defined for vector-valued input fields only and fails with
`TypeConflictError` on scalar input.  The same algorithm serves both
domain variants and preserves the input's variant. -/
noncomputable def VertexNormFilter.apply (f : DistributedField) :
    Except FilterError DistributedField :=
  if 2 ≤ f.fiberDim then
    Except.ok
      { variant := f.variant, fiberDim := 1,
        values := f.values.map (fun v => [vertexNorm v]) }
  else
    Except.error FilterError.typeConflict

/-- Data carried by one cell for cell filtering: the quantity sampled at
the cell's quadrature/representative points, and optional explicit
quadrature weights. -/
structure CellData where
  samples : List ℝ
  weights : Option (List ℝ)

/-- A field of per-cell sample data, tagged with the domain variant
carrying it. -/
structure CellField where
  variant : DomainVariant
  cells : List CellData

/-- Average of one cell's samples: the arithmetic mean with equal
weights when the cell supplies no explicit quadrature weights, and the
weighted mean otherwise. -/
noncomputable def cellAverage (c : CellData) : ℝ :=
  match c.weights with
  | none => c.samples.sum / (c.samples.length : ℝ)
  | some w => (List.zipWith (fun a b => a * b) w c.samples).sum / w.sum

/-- Modelled from the spec: `CellAverageFilter.apply` (class
`CellFilterAvg`, only its tests are visible): one output value per cell,
the (weighted) mean of that cell's samples.  The same algorithm serves
both domain variants and preserves the input's variant. -/
noncomputable def CellAverageFilter.apply (f : CellField) : DistributedField :=
  { variant := f.variant, fiberDim := 1,
    values := f.cells.map (fun c => [cellAverage c]) }

/-- Project a filter output to its per-point values, for comparing the
results produced on different domain variants. -/
def outputValues : Except FilterError DistributedField →
    Except FilterError (List PointValue) :=
  Except.map DistributedField.values

/- ------------------------------------------------------------------ -/
/- VTK data writer (DataWriterVTK)                                     -/
/- ------------------------------------------------------------------ -/

/-- Lifecycle states of a data writer: before `open` has ever been
called, between `open` and `close`, and after `close`. -/
inductive WriterState where
  | initial
  | opened
  | closed
deriving Repr, DecidableEq

/-- Errors raised by the writer. -/
inductive WriterError where
  | sequence
deriving Repr, DecidableEq

/-- Modelled from the spec: state of a `DataWriterVTK` (only its tests
are visible): lifecycle position, the path passed to the last `open`,
and the log of `(field name, time, step)` records written so far. -/
structure DataWriterVTK where
  state : WriterState
  path : Option String
  written : List (String × ℝ × Int)

/-- A writer on which neither `open` nor `close` has been called. -/
def DataWriterVTK.fresh : DataWriterVTK :=
  { state := WriterState.initial, path := none, written := [] }

/-- Modelled from the spec: `open(path, domain)` acquires the output
resource; the writer is then inside the `open`/`close` bracket. -/
def DataWriterVTK.openPath (w : DataWriterVTK) (path : String) :
    DataWriterVTK :=
  { w with state := WriterState.opened, path := some path }

/-- Modelled from the spec: `writeField(field, time, step)` appends one
record for the field at this step; it is only valid between `open` and
`close`, and calling it outside that bracket fails with
`SequenceError`. -/
def DataWriterVTK.writeField (w : DataWriterVTK) (fieldName : String)
    (t : ℝ) (step : Int) : Except WriterError DataWriterVTK :=
  match w.state with
  | WriterState.opened =>
      Except.ok { w with written := w.written ++ [(fieldName, t, step)] }
  | _ => Except.error WriterError.sequence

/-- Modelled from the spec: `close()` releases the output resource; the
writer leaves the `open`/`close` bracket. -/
def DataWriterVTK.close (w : DataWriterVTK) : DataWriterVTK :=
  { w with state := WriterState.closed }

/- ------------------------------------------------------------------ -/
/- OutputManager step bookkeeping                                      -/
/- ------------------------------------------------------------------ -/

/-- Lifecycle states of an output manager after configuration:
`configured` (no step written yet or between steps), `writing` (at least
one step written), `closed` (finalized, terminal). -/
inductive OMState where
  | configured
  | writing
  | closed
deriving Repr, DecidableEq

/-- Errors raised by the output manager. -/
inductive OMError where
  | ordering
  | sequence
deriving Repr, DecidableEq

/-- Modelled from the spec: state of an `OutputManager` (only its tests
are visible): lifecycle position, the step index of the previous
`writeStep` call (none before the first), and the log of
`(time, step index)` pairs written. -/
structure OutputManager where
  state : OMState
  lastStep : Option Int
  steps : List (ℝ × Int)

/-- An output manager that has just been configured. -/
def OutputManager.configuredInit : OutputManager :=
  { state := OMState.configured, lastStep := none, steps := [] }

/-- Modelled from the spec: `writeStep(time, stepIndex)` writes one
output step; it requires the step index to strictly exceed the previous
call's step index (else it fails with `OrderingError`) and is not
permitted once the manager is closed (failing with `SequenceError`). -/
def OutputManager.writeStep (m : OutputManager) (time : ℝ) (step : Int) :
    Except OMError OutputManager :=
  match m.state with
  | OMState.closed => Except.error OMError.sequence
  | _ =>
    match m.lastStep with
    | none =>
        Except.ok { state := OMState.writing, lastStep := some step,
                    steps := m.steps ++ [(time, step)] }
    | some prev =>
        if prev < step then
          Except.ok { state := OMState.writing, lastStep := some step,
                      steps := m.steps ++ [(time, step)] }
        else
          Except.error OMError.ordering

/-- Run a sequence of `writeStep` calls in order, stopping at the first
failure. -/
def runWriteSteps : OutputManager → List (ℝ × Int) →
    Except OMError OutputManager
  | m, [] => Except.ok m
  | m, (t, s) :: rest =>
    match m.writeStep t s with
    | Except.ok m2 => runWriteSteps m2 rest
    | Except.error e => Except.error e

/- ------------------------------------------------------------------ -/
/- Numerics runtime lifecycle (PetscManager)                           -/
/- ------------------------------------------------------------------ -/

/-- Lifecycle states of the numerics runtime over one process lifetime:
never started, started (bracket open), shut down (bracket closed,
terminal). -/
inductive RState where
  | freshR
  | ready
  | finalized
deriving Repr, DecidableEq

/-- Errors raised by the runtime lifecycle: `runtimeNotReady` when a
core operation runs outside the bracket, `lifecycle` when the bracket
calls themselves are misused (re-initialization, finalizing an
unstarted or already-finalized runtime). -/
inductive RError where
  | runtimeNotReady
  | lifecycle
deriving Repr, DecidableEq

/-- The three kinds of events in a runtime lifetime: the runtime
`initialize()` call, any core field/solver/output operation, and the
runtime `finalize()` call. -/
inductive REvent where
  | initEvent
  | coreOp
  | finalizeEvent
deriving Repr, DecidableEq

/-- Modelled from the spec: the `NumericsRuntime` (`PetscManager`, not
in the visible sources) transition function: `initialize()` and
`finalize()` are each permitted exactly once, `initialize()` first and
`finalize()` last; any core operation invoked outside the open bracket
fails with `RuntimeNotReadyError`. -/
def rstep : RState → REvent → Except RError RState
  | RState.freshR, REvent.initEvent => Except.ok RState.ready
  | RState.ready, REvent.coreOp => Except.ok RState.ready
  | RState.ready, REvent.finalizeEvent => Except.ok RState.finalized
  | RState.freshR, REvent.coreOp => Except.error RError.runtimeNotReady
  | RState.finalized, REvent.coreOp => Except.error RError.runtimeNotReady
  | RState.ready, REvent.initEvent => Except.error RError.lifecycle
  | RState.freshR, REvent.finalizeEvent => Except.error RError.lifecycle
  | RState.finalized, REvent.initEvent => Except.error RError.lifecycle
  | RState.finalized, REvent.finalizeEvent => Except.error RError.lifecycle

/-- Run a list of runtime events in order from a starting state,
stopping at the first failure. -/
def runEvents : RState → List REvent → Except RError RState
  | s, [] => Except.ok s
  | s, e :: rest =>
    match rstep s e with
    | Except.ok s2 => runEvents s2 rest
    | Except.error err => Except.error err

/- ------------------------------------------------------------------ -/
/- Theorems                                                            -/
/- ------------------------------------------------------------------ -/

/-- C3: for every field, `deallocate()` called twice leaves the field in
the same state as calling it once; the first call releases the storage
handle, a second call is a no-op and not an error (it is a total
function on field state); and `MeshField.cleanup` and
`SubMeshField.cleanup` perform exactly this deallocation. -/
theorem deallocate_idempotent_cleanup :
    (∀ f : MeshField, f.deallocate.deallocate = f.deallocate) ∧
    (∀ f : SubMeshField, f.deallocate.deallocate = f.deallocate) ∧
    (∀ f : MeshField, f.deallocate.storage = none) ∧
    (∀ f : SubMeshField, f.deallocate.storage = none) ∧
    (∀ f : MeshField, f.cleanup = f.deallocate) ∧
    (∀ f : SubMeshField, f.cleanup = f.deallocate) :=
  ⟨fun _ => rfl, fun _ => rfl, fun _ => rfl, fun _ => rfl,
   fun _ => rfl, fun _ => rfl⟩

/-- C10: `TestApp.main` runs `manager.initialize()`, the suite, then
`manager.finalize()` with no exception handling: on the normal path all
three run in that order, and if running the suite raises, `finalize()`
is never invoked and `main` does not return normally. -/
theorem mainRun_finalize_only_on_normal_path :
    TestApp.mainRun false =
      ([MainCall.initCall, MainCall.runSuite, MainCall.finalizeCall], true) ∧
    TestApp.mainRun true = ([MainCall.initCall, MainCall.runSuite], false) ∧
    (∀ b : Bool, MainCall.finalizeCall ∈ (TestApp.mainRun b).1 ↔ b = false) := by
  refine ⟨rfl, rfl, ?_⟩
  intro b
  cases b <;> simp [TestApp.mainRun, TestApp.mainStmts, runStmts]

/-- Length is preserved when overwriting components of a point value. -/
theorem setComponents_length (comps : List Nat) (v : ℝ) (xs : PointValue) :
    (setComponents comps v xs).length = xs.length := by
  simp [setComponents]

/-- Entry `c` of a point value after overwriting the components listed
in `comps` with `v`: the new value `v` at constrained components, the
old entry elsewhere. -/
theorem setComponents_get? (comps : List Nat) (v : ℝ) (xs : PointValue)
    (c : Nat) (hc : c < xs.length) :
    (setComponents comps v xs).get? c =
      some (if c ∈ comps then v else xs.get ⟨c, hc⟩) := by
  have hc' : c < (setComponents comps v xs).length := by
    rw [setComponents_length]
    exact hc
  rw [List.get?_eq_get hc']
  exact congrArg some (List.get_mapIdx xs _ c hc)

/-- C1: a `DirichletTimeDependent` condition whose database evaluates to
`0` at every position and time sets the constrained components of
exactly the sub-domain's points to `0` and leaves the value of every
point outside the sub-domain unchanged. -/
theorem dirichletZero_frame (bc : DirichletTimeDependent) (f : FieldVals)
    (t : ℝ) (hdb : ∀ p s, bc.database p s = 0) :
    (∀ p, p ∈ bc.subDomain → ∀ c, c ∈ bc.constrainedComponents →
      c < (f p).length → ((bc.apply f t) p).get? c = some 0) ∧
    (∀ p, p ∉ bc.subDomain → (bc.apply f t) p = f p) := by
  constructor
  · intro p hp c hcc hlen
    unfold DirichletTimeDependent.apply
    rw [if_pos hp, setComponents_get? bc.constrainedComponents _ (f p) c hlen,
      if_pos hcc, hdb]
  · intro p hp
    unfold DirichletTimeDependent.apply
    rw [if_neg hp]

/-- A two-point sub-domain condition with a constant-zero database, for
exercising `dirichletZero_frame`. -/
def bcZero : DirichletTimeDependent :=
  { subDomain := [0, 1], constrainedComponents := [0],
    database := fun _ _ => 0 }

/-- A field whose every point initially holds the non-zero value
`[1, 2]`. -/
def fInit : FieldVals := fun _ => [1, 2]

/-- C1 witness: on the concrete condition `bcZero` and field `fInit`,
point `0` (in the sub-domain) has its constrained component set to `0`
and point `5` (outside the sub-domain) is unchanged. -/
theorem dirichletZero_frame_witness :
    ((bcZero.apply fInit 0) 0).get? 0 = some 0 ∧
    (bcZero.apply fInit 0) 5 = fInit 5 := by
  have h := dirichletZero_frame bcZero fInit 0 (fun _ _ => rfl)
  exact ⟨h.1 0 (by decide) 0 (by decide) (by decide),
         h.2 5 (by decide)⟩

/-- Applications of two boundary conditions with disjoint target
sub-domains commute. -/
theorem apply_comm_of_disjoint (a b : DirichletTimeDependent) (t : ℝ)
    (hab : SubDisjoint a b) (g : FieldVals) :
    b.apply (a.apply g t) t = a.apply (b.apply g t) t := by
  funext p
  simp only [DirichletTimeDependent.apply]
  by_cases ha : p ∈ a.subDomain <;> by_cases hb : p ∈ b.subDomain
  · exact absurd hb (hab p ha)
  · simp [ha, hb]
  · simp [ha, hb]
  · simp [ha, hb]

/-- Applying one boundary condition preserves the number of components
stored at every point. -/
theorem apply_length (bc : DirichletTimeDependent) (f : FieldVals) (t : ℝ)
    (p : Nat) : ((bc.apply f t) p).length = (f p).length := by
  unfold DirichletTimeDependent.apply
  by_cases hp : p ∈ bc.subDomain
  · rw [if_pos hp, setComponents_length]
  · rw [if_neg hp]

/-- Applying a list of boundary conditions preserves the number of
components stored at every point. -/
theorem applyAll_length (bcs : List DirichletTimeDependent) (f : FieldVals)
    (t : ℝ) (p : Nat) : ((applyAll bcs f t) p).length = (f p).length := by
  induction bcs generalizing f with
  | nil => rfl
  | cons bc rest ih =>
    show ((applyAll rest (bc.apply f t) t) p).length = (f p).length
    rw [ih (bc.apply f t), apply_length]

/-- C2: for boundary conditions attached to one field, application
order does not matter when the target sub-domains are pairwise
disjoint (any permutation of the list yields the same final field);
when sub-domains overlap, the condition appearing later in the
caller-specified list wins: after applying `bcs ++ [bc2]`, every
constrained component of every point of `bc2`'s sub-domain holds
`bc2`'s database value, whatever the earlier conditions wrote. -/
theorem bcOrder_disjoint_and_later_wins :
    (∀ (bcs bcs' : List DirichletTimeDependent) (f : FieldVals) (t : ℝ),
      bcs.Perm bcs' →
      (∀ x ∈ bcs, ∀ y ∈ bcs, x = y ∨ SubDisjoint x y) →
      applyAll bcs f t = applyAll bcs' f t) ∧
    (∀ (bcs : List DirichletTimeDependent) (bc2 : DirichletTimeDependent)
      (f : FieldVals) (t : ℝ) (p c : Nat),
      p ∈ bc2.subDomain → c ∈ bc2.constrainedComponents → c < (f p).length →
      ((applyAll (bcs ++ [bc2]) f t) p).get? c = some (bc2.database p t)) := by
  constructor
  · intro bcs bcs' f t hperm hdisj
    unfold applyAll
    refine hperm.foldl_eq' (fun x hx y hy z => ?_) f
    rcases hdisj x hx y hy with h | h
    · rw [h]
    · exact apply_comm_of_disjoint x y t h z
  · intro bcs bc2 f t p c hp hcc hlen
    unfold applyAll
    rw [List.foldl_append]
    show ((bc2.apply (applyAll bcs f t) t) p).get? c = some (bc2.database p t)
    have hlen2 : c < ((applyAll bcs f t) p).length := by
      rw [applyAll_length]
      exact hlen
    unfold DirichletTimeDependent.apply
    rw [if_pos hp, setComponents_get? bc2.constrainedComponents _ _ c hlen2,
      if_pos hcc]

/-- A condition constraining component 0 on point 0 only. -/
def bcLeft : DirichletTimeDependent :=
  { subDomain := [0], constrainedComponents := [0], database := fun _ _ => 1 }

/-- A condition constraining component 0 on point 1 only; its sub-domain
is disjoint from `bcLeft`'s. -/
def bcRight : DirichletTimeDependent :=
  { subDomain := [1], constrainedComponents := [0], database := fun _ _ => 2 }

/-- A condition covering both points of a 2-point mesh, writing 3. -/
def bcWide : DirichletTimeDependent :=
  { subDomain := [0, 1], constrainedComponents := [0], database := fun _ _ => 3 }

/-- A condition overlapping `bcWide` at point 1, writing 4. -/
def bcOver : DirichletTimeDependent :=
  { subDomain := [1], constrainedComponents := [0], database := fun _ _ => 4 }

/-- C2 witness: on a literal 2-point mesh, the disjoint pair
`bcLeft`/`bcRight` can be applied in either order with the same result,
and for the overlapping pair `bcWide` then `bcOver`, the later condition
`bcOver` determines the final value at the overlapped point 1. -/
theorem bcOrder_disjoint_and_later_wins_witness :
    applyAll [bcLeft, bcRight] fInit 0 = applyAll [bcRight, bcLeft] fInit 0 ∧
    ((applyAll ([bcWide] ++ [bcOver]) fInit 0) 1).get? 0 =
      some (bcOver.database 1 0) := by
  have h := bcOrder_disjoint_and_later_wins
  constructor
  · refine h.1 [bcLeft, bcRight] [bcRight, bcLeft] fInit 0
      (List.Perm.swap bcRight bcLeft []) ?_
    intro x hx y hy
    simp only [List.mem_cons, List.not_mem_nil, or_false] at hx hy
    rcases hx with hx | hx <;> rcases hy with hy | hy <;> subst hx <;> subst hy
    · exact Or.inl rfl
    · refine Or.inr (fun p hp => ?_)
      simp only [bcLeft, List.mem_singleton] at hp
      subst hp
      decide
    · refine Or.inr (fun p hp => ?_)
      simp only [bcRight, List.mem_singleton] at hp
      subst hp
      decide
    · exact Or.inl rfl
  · exact h.2 [bcWide] bcOver fInit 0 1 0 (by decide) (by decide) (by decide)

/-- Euclidean norm of the concrete vector value `(3, 4)`. -/
theorem vertexNorm_three_four : vertexNorm [3, 4] = 5 := by
  unfold vertexNorm
  have h : (([3, 4] : List ℝ).map fun x => x ^ 2).sum = 5 ^ 2 := by
    simp
    norm_num
  rw [h, Real.sqrt_sq (by norm_num : (0:ℝ) ≤ 5)]

/-- C4: on every vector-valued field, `VertexNormFilter.apply` produces
at each vertex a scalar that is the Euclidean norm of the vertex's
vector components (nonnegative, and squaring it recovers the sum of the
squared components); on a scalar field it fails with
`TypeConflictError`; and input `(3, 4)` at a single vertex yields
`5.0`. -/
theorem vertexNormFilter_spec :
    (∀ f : DistributedField, 2 ≤ f.fiberDim →
      ∃ g : DistributedField, VertexNormFilter.apply f = Except.ok g ∧
        g.fiberDim = 1 ∧ g.variant = f.variant ∧
        g.values.length = f.values.length ∧
        ∀ i v, f.values.get? i = some v →
          ∃ r : ℝ, g.values.get? i = some [r] ∧ 0 ≤ r ∧
            r ^ 2 = (v.map fun x => x ^ 2).sum) ∧
    (∀ f : DistributedField, f.fiberDim = 1 →
      VertexNormFilter.apply f = Except.error FilterError.typeConflict) ∧
    VertexNormFilter.apply
        { variant := DomainVariant.fullMesh, fiberDim := 2,
          values := [[3, 4]] } =
      Except.ok
        { variant := DomainVariant.fullMesh, fiberDim := 1,
          values := [[5]] } := by
  refine ⟨?_, ?_, ?_⟩
  · intro f hf
    refine ⟨{ variant := f.variant, fiberDim := 1,
              values := f.values.map (fun v => [vertexNorm v]) }, ?_, rfl, rfl,
            by simp, ?_⟩
    · unfold VertexNormFilter.apply
      rw [if_pos hf]
    · intro i v hv
      refine ⟨vertexNorm v, ?_, Real.sqrt_nonneg _, ?_⟩
      · rw [List.get?_map, hv]
        rfl
      · unfold vertexNorm
        refine Real.sq_sqrt (List.sum_nonneg ?_)
        intro x hx
        obtain ⟨y, _, rfl⟩ := List.mem_map.mp hx
        exact sq_nonneg y
  · intro f hf
    simp [VertexNormFilter.apply, hf]
  · simp [VertexNormFilter.apply, vertexNorm_three_four]

/-- A vector-valued single-vertex field on the full mesh with value
`(3, 4)`. -/
def vecField : DistributedField :=
  { variant := DomainVariant.fullMesh, fiberDim := 2, values := [[3, 4]] }

/-- A scalar-valued single-vertex field. -/
def scalField : DistributedField :=
  { variant := DomainVariant.fullMesh, fiberDim := 1, values := [[7]] }

/-- C4 witness: the vector branch of `vertexNormFilter_spec` at the
concrete field `vecField` and the scalar failure at `scalField`. -/
theorem vertexNormFilter_spec_witness :
    (∃ g : DistributedField, VertexNormFilter.apply vecField = Except.ok g ∧
      g.fiberDim = 1 ∧ g.variant = vecField.variant ∧
      g.values.length = vecField.values.length ∧
      ∀ i v, vecField.values.get? i = some v →
        ∃ r : ℝ, g.values.get? i = some [r] ∧ 0 ≤ r ∧
          r ^ 2 = (v.map fun x => x ^ 2).sum) ∧
    VertexNormFilter.apply scalField = Except.error FilterError.typeConflict := by
  have h := vertexNormFilter_spec
  exact ⟨h.1 vecField (by decide), h.2.1 scalField rfl⟩

/-- Pointwise product of a constant-weight list against samples. -/
theorem zipWith_mul_replicate (w₀ : ℝ) (s : List ℝ) :
    List.zipWith (fun a b => a * b) (List.replicate s.length w₀) s =
      s.map (fun b => w₀ * b) := by
  induction s with
  | nil => rfl
  | cons x s ih => simp [List.replicate_succ, ih]

/-- C5: `CellAverageFilter.apply` produces exactly one output value per
cell; that value is the sample mean with equal weights when the cell
supplies no quadrature weights and the weighted mean otherwise; equal
explicit weights give back the arithmetic mean; and two equally-weighted
samples `2.0` and `4.0` average to `3.0`. -/
theorem cellAverageFilter_spec :
    (∀ cf : CellField, (CellAverageFilter.apply cf).values.length =
      cf.cells.length) ∧
    (∀ (cf : CellField) (i : Nat) (c : CellData), cf.cells.get? i = some c →
      (CellAverageFilter.apply cf).values.get? i = some [cellAverage c]) ∧
    (∀ c : CellData, c.weights = none →
      cellAverage c = c.samples.sum / (c.samples.length : ℝ)) ∧
    (∀ (c : CellData) (w : List ℝ), c.weights = some w →
      cellAverage c =
        (List.zipWith (fun a b => a * b) w c.samples).sum / w.sum) ∧
    (∀ (s : List ℝ) (w₀ : ℝ), w₀ ≠ 0 →
      cellAverage { samples := s, weights := some (List.replicate s.length w₀) } =
        cellAverage { samples := s, weights := none }) ∧
    cellAverage { samples := [2, 4], weights := none } = 3 := by
  refine ⟨?_, ?_, ?_, ?_, ?_, ?_⟩
  · intro cf
    simp [CellAverageFilter.apply]
  · intro cf i c hc
    show (cf.cells.map (fun c => [cellAverage c])).get? i = some [cellAverage c]
    rw [List.get?_map, hc]
    rfl
  · intro c h
    simp [cellAverage, h]
  · intro c w h
    simp [cellAverage, h]
  · intro s w₀ hw
    show (List.zipWith (fun a b => a * b) (List.replicate s.length w₀) s).sum /
        (List.replicate s.length w₀).sum = s.sum / (s.length : ℝ)
    rw [zipWith_mul_replicate, List.sum_map_mul_left s (fun b => b) w₀,
      List.sum_replicate, nsmul_eq_mul, List.map_id', mul_comm (s.length : ℝ) w₀]
    exact mul_div_mul_left _ _ hw
  · show (([2, 4] : List ℝ).sum) / ((([2, 4] : List ℝ).length : ℕ) : ℝ) = 3
    norm_num

/-- A one-cell sample field on the full mesh with equally-weighted
samples `2.0` and `4.0`. -/
def cellFieldMesh : CellField :=
  { variant := DomainVariant.fullMesh,
    cells := [{ samples := [2, 4], weights := none }] }

/-- C5 witness: the per-cell output of `cellAverageFilter_spec` at the
concrete one-cell field `cellFieldMesh`, and equal explicit weights
agreeing with the unweighted mean on the samples `[2, 4]`. -/
theorem cellAverageFilter_spec_witness :
    (CellAverageFilter.apply cellFieldMesh).values.get? 0 =
      some [cellAverage { samples := [2, 4], weights := none }] ∧
    cellAverage { samples := ([2, 4] : List ℝ), weights := some (List.replicate 2 1) } =
      cellAverage { samples := ([2, 4] : List ℝ), weights := none } := by
  have h := cellAverageFilter_spec
  exact ⟨h.2.1 cellFieldMesh 0 { samples := [2, 4], weights := none } rfl,
    h.2.2.2.2.1 [2, 4] 1 (by norm_num)⟩

/-- C8: both filters compute the same function on a full-mesh field and
on a boundary-sub-mesh field: with equal point values (and equal fiber
dimension), the output values are identical even though one input lives
on the full mesh and the other on a sub-mesh. -/
theorem filters_domain_variant_independent :
    (∀ f g : DistributedField, f.variant = DomainVariant.fullMesh →
      g.variant = DomainVariant.subMesh → f.fiberDim = g.fiberDim →
      f.values = g.values →
      outputValues (VertexNormFilter.apply f) =
        outputValues (VertexNormFilter.apply g)) ∧
    (∀ cf cg : CellField, cf.variant = DomainVariant.fullMesh →
      cg.variant = DomainVariant.subMesh → cf.cells = cg.cells →
      (CellAverageFilter.apply cf).values =
        (CellAverageFilter.apply cg).values) := by
  constructor
  · intro f g _ _ hdim hvals
    unfold VertexNormFilter.apply outputValues
    rw [hdim, hvals]
    by_cases h2 : 2 ≤ g.fiberDim
    · rw [if_pos h2, if_pos h2]
      rfl
    · rw [if_neg h2, if_neg h2]
  · intro cf cg _ _ hcells
    unfold CellAverageFilter.apply
    rw [hcells]

/-- The same single-vertex vector value `(3, 4)` carried by the sub-mesh
variant. -/
def vecFieldSub : DistributedField :=
  { variant := DomainVariant.subMesh, fiberDim := 2, values := [[3, 4]] }

/-- Sub-mesh copy of `cellFieldMesh`'s cell data. -/
def cellFieldSub : CellField :=
  { variant := DomainVariant.subMesh,
    cells := [{ samples := [2, 4], weights := none }] }

/-- C8 witness: `filters_domain_variant_independent` at concrete
full-mesh/sub-mesh field pairs carrying identical point values. -/
theorem filters_domain_variant_independent_witness :
    outputValues (VertexNormFilter.apply vecField) =
      outputValues (VertexNormFilter.apply vecFieldSub) ∧
    (CellAverageFilter.apply cellFieldMesh).values =
      (CellAverageFilter.apply cellFieldSub).values := by
  have h := filters_domain_variant_independent
  exact ⟨h.1 vecField vecFieldSub rfl rfl rfl rfl,
         h.2 cellFieldMesh cellFieldSub rfl rfl rfl⟩

/-- C6: every `writeStep` call on a non-closed manager requires its step
index to strictly exceed the previous call's step index and fails with
`OrderingError` otherwise; in particular the step-index sequence
`[0, 1, 1]` succeeds on the first two calls and fails with
`OrderingError` on the third. -/
theorem writeStep_strictly_increasing :
    (∀ (m : OutputManager) (t : ℝ) (s prev : Int),
      m.state ≠ OMState.closed → m.lastStep = some prev →
      ((prev < s → ∃ m', m.writeStep t s = Except.ok m' ∧
          m'.lastStep = some s ∧ m'.steps = m.steps ++ [(t, s)]) ∧
       (¬ prev < s → m.writeStep t s = Except.error OMError.ordering))) ∧
    (∃ m', runWriteSteps OutputManager.configuredInit [(0, 0), (1, 1)] =
      Except.ok m' ∧ m'.lastStep = some 1) ∧
    runWriteSteps OutputManager.configuredInit [(0, 0), (1, 1), (2, 1)] =
      Except.error OMError.ordering := by
  refine ⟨?_, ?_, ?_⟩
  · intro m t s prev hstate hprev
    obtain ⟨st, last, sl⟩ := m
    have hlast : last = some prev := hprev
    subst hlast
    constructor
    · intro hlt
      cases st with
      | closed => exact absurd rfl hstate
      | configured =>
        refine ⟨{ state := OMState.writing, lastStep := some s,
                  steps := sl ++ [(t, s)] }, ?_, rfl, rfl⟩
        show (if prev < s then
            Except.ok ({ state := OMState.writing, lastStep := some s,
                         steps := sl ++ [(t, s)] } : OutputManager)
          else Except.error OMError.ordering) =
          Except.ok ({ state := OMState.writing, lastStep := some s,
                       steps := sl ++ [(t, s)] } : OutputManager)
        rw [if_pos hlt]
      | writing =>
        refine ⟨{ state := OMState.writing, lastStep := some s,
                  steps := sl ++ [(t, s)] }, ?_, rfl, rfl⟩
        show (if prev < s then
            Except.ok ({ state := OMState.writing, lastStep := some s,
                         steps := sl ++ [(t, s)] } : OutputManager)
          else Except.error OMError.ordering) =
          Except.ok ({ state := OMState.writing, lastStep := some s,
                       steps := sl ++ [(t, s)] } : OutputManager)
        rw [if_pos hlt]
    · intro hge
      cases st with
      | closed => exact absurd rfl hstate
      | configured =>
        show (if prev < s then
            Except.ok ({ state := OMState.writing, lastStep := some s,
                         steps := sl ++ [(t, s)] } : OutputManager)
          else Except.error OMError.ordering) =
          Except.error OMError.ordering
        rw [if_neg hge]
      | writing =>
        show (if prev < s then
            Except.ok ({ state := OMState.writing, lastStep := some s,
                         steps := sl ++ [(t, s)] } : OutputManager)
          else Except.error OMError.ordering) =
          Except.error OMError.ordering
        rw [if_neg hge]
  · refine ⟨_, rfl, rfl⟩
  · rfl

/-- A manager that has written step 0 at time 0. -/
def omAfterZero : OutputManager :=
  { state := OMState.writing, lastStep := some 0, steps := [(0, 0)] }

/-- C6 witness: `writeStep_strictly_increasing` on the concrete manager
`omAfterZero`: step index 1 succeeds, repeating step index 0 fails with
`OrderingError`. -/
theorem writeStep_strictly_increasing_witness :
    (∃ m', omAfterZero.writeStep 1 1 = Except.ok m' ∧
      m'.lastStep = some 1 ∧ m'.steps = omAfterZero.steps ++ [(1, 1)]) ∧
    omAfterZero.writeStep 2 0 = Except.error OMError.ordering := by
  have h := writeStep_strictly_increasing
  exact ⟨(h.1 omAfterZero 1 1 0 (by decide) rfl).1 (by decide),
         (h.1 omAfterZero 2 0 0 (by decide) rfl).2 (by decide)⟩

/-- C7: `writeField` succeeds exactly when the writer is between `open`
and `close`; on a writer on which `open` has never been called, and on a
writer whose bracket has been closed, it fails with `SequenceError`,
while inside the bracket it succeeds. -/
theorem writeField_requires_open_bracket :
    (∀ (w : DataWriterVTK) (fn : String) (t : ℝ) (s : Int),
      (∃ w', w.writeField fn t s = Except.ok w') ↔
        w.state = WriterState.opened) ∧
    (∀ (fn : String) (t : ℝ) (s : Int),
      DataWriterVTK.fresh.writeField fn t s =
        Except.error WriterError.sequence) ∧
    (∀ (w : DataWriterVTK) (p fn : String) (t : ℝ) (s : Int),
      ((w.openPath p).close).writeField fn t s =
        Except.error WriterError.sequence) ∧
    (∀ (w : DataWriterVTK) (p fn : String) (t : ℝ) (s : Int),
      ∃ w', (w.openPath p).writeField fn t s = Except.ok w' ∧
        w'.written = w.written ++ [(fn, t, s)]) := by
  refine ⟨?_, ?_, ?_, ?_⟩
  · intro w fn t s
    obtain ⟨st, pa, wr⟩ := w
    constructor
    · intro hok
      obtain ⟨w', hw'⟩ := hok
      cases st with
      | opened => rfl
      | initial => exact Except.noConfusion hw'
      | closed => exact Except.noConfusion hw'
    · intro hs
      cases st with
      | opened => exact ⟨_, rfl⟩
      | initial => exact WriterState.noConfusion hs
      | closed => exact WriterState.noConfusion hs
  · intro fn t s
    rfl
  · intro w p fn t s
    rfl
  · intro w p fn t s
    exact ⟨_, rfl, rfl⟩

/-- C7 witness: `writeField_requires_open_bracket` at the concrete fresh
writer: inside an `open`/`close` bracket the write succeeds, before
`open` and after `close` it fails with `SequenceError`. -/
theorem writeField_requires_open_bracket_witness :
    (∃ w', (DataWriterVTK.fresh.openPath "out.vtk").writeField
        "displacement" 0 1 = Except.ok w' ∧
      w'.written = DataWriterVTK.fresh.written ++ [("displacement", 0, 1)]) ∧
    DataWriterVTK.fresh.writeField "displacement" 0 1 =
      Except.error WriterError.sequence ∧
    ((DataWriterVTK.fresh.openPath "out.vtk").close).writeField
        "displacement" 0 1 = Except.error WriterError.sequence := by
  have h := writeField_requires_open_bracket
  exact ⟨h.2.2.2 DataWriterVTK.fresh "out.vtk" "displacement" 0 1,
         h.2.1 "displacement" 0 1,
         h.2.2.1 DataWriterVTK.fresh "out.vtk" "displacement" 0 1⟩

/-- From the finalized state, every further event fails: a successful
run from `finalized` does no events at all. -/
theorem runEvents_finalized (l : List REvent) (s : RState)
    (h : runEvents RState.finalized l = Except.ok s) :
    l = [] ∧ s = RState.finalized := by
  cases l with
  | nil =>
    refine ⟨rfl, ?_⟩
    injection h with h'
    exact h'.symm
  | cons e rest =>
    cases e <;> exact Except.noConfusion h

/-- A successful run from the ready state that ends finalized is some
core operations followed by exactly one `finalize()`. -/
theorem runEvents_ready (l : List REvent)
    (h : runEvents RState.ready l = Except.ok RState.finalized) :
    ∃ ops, l = ops ++ [REvent.finalizeEvent] ∧
      ∀ e ∈ ops, e = REvent.coreOp := by
  induction l with
  | nil =>
    injection h with h'
    exact absurd h' (by simp)
  | cons e rest ih =>
    cases e with
    | initEvent => exact Except.noConfusion h
    | coreOp =>
      obtain ⟨ops, rfl, hops⟩ := ih h
      refine ⟨REvent.coreOp :: ops, rfl, ?_⟩
      intro e he
      rcases List.mem_cons.mp he with rfl | he'
      · rfl
      · exact hops e he'
    | finalizeEvent =>
      obtain ⟨hrest, -⟩ := runEvents_finalized rest RState.finalized h
      subst hrest
      exact ⟨[], rfl, by intro e he; cases he⟩

/-- All-core event lists run successfully from ready to ready. -/
theorem runEvents_ready_cores (ops : List REvent)
    (hops : ∀ e ∈ ops, e = REvent.coreOp) :
    runEvents RState.ready ops = Except.ok RState.ready := by
  induction ops with
  | nil => rfl
  | cons e rest ih =>
    obtain rfl : e = REvent.coreOp := hops e (List.mem_cons_self e rest)
    exact ih (fun x hx => hops x (List.mem_cons_of_mem _ hx))

/-- C9: a run of the numerics runtime over one process lifetime reaches
a clean shutdown exactly when its event trace is one `initialize()`,
then core field/solver/output operations only, then one `finalize()`;
consequently such a trace calls `initialize()` and `finalize()` exactly
once each, with `initialize()` before all core activity and
`finalize()` after it; and a core operation in any state outside the
open bracket fails with `RuntimeNotReadyError`. -/
theorem runtime_bracket :
    (∀ tr : List REvent,
      runEvents RState.freshR tr = Except.ok RState.finalized ↔
      ∃ ops, tr = REvent.initEvent :: (ops ++ [REvent.finalizeEvent]) ∧
        ∀ e ∈ ops, e = REvent.coreOp) ∧
    (∀ tr : List REvent,
      runEvents RState.freshR tr = Except.ok RState.finalized →
      tr.count REvent.initEvent = 1 ∧ tr.count REvent.finalizeEvent = 1) ∧
    (∀ s : RState, s ≠ RState.ready →
      rstep s REvent.coreOp = Except.error RError.runtimeNotReady) := by
  have hiff : ∀ tr : List REvent,
      runEvents RState.freshR tr = Except.ok RState.finalized ↔
      ∃ ops, tr = REvent.initEvent :: (ops ++ [REvent.finalizeEvent]) ∧
        ∀ e ∈ ops, e = REvent.coreOp := by
    intro tr
    constructor
    · intro h
      cases tr with
      | nil =>
        injection h with h'
        exact absurd h' (by simp)
      | cons e rest =>
        cases e with
        | coreOp => exact Except.noConfusion h
        | finalizeEvent => exact Except.noConfusion h
        | initEvent =>
          obtain ⟨ops, rfl, hops⟩ := runEvents_ready rest h
          exact ⟨ops, rfl, hops⟩
    · rintro ⟨ops, rfl, hops⟩
      show runEvents RState.ready (ops ++ [REvent.finalizeEvent]) =
        Except.ok RState.finalized
      induction ops with
      | nil => rfl
      | cons e rest ih =>
        obtain rfl : e = REvent.coreOp := hops e (List.mem_cons_self e rest)
        exact ih (fun x hx => hops x (List.mem_cons_of_mem _ hx))
  refine ⟨hiff, ?_, ?_⟩
  · intro tr h
    obtain ⟨ops, rfl, hops⟩ := (hiff tr).mp h
    have hinit : REvent.initEvent ∉ ops := by
      intro hmem
      exact absurd (hops _ hmem) (by simp)
    have hfin : REvent.finalizeEvent ∉ ops := by
      intro hmem
      exact absurd (hops _ hmem) (by simp)
    constructor
    · rw [List.count_cons, List.count_append]
      rw [List.count_eq_zero.mpr hinit]
      rfl
    · rw [List.count_cons, List.count_append]
      rw [List.count_eq_zero.mpr hfin]
      rfl
  · intro s hs
    cases s with
    | freshR => rfl
    | ready => exact absurd rfl hs
    | finalized => rfl

/-- C9 witness: `runtime_bracket` on the concrete successful trace
`[initialize, core, finalize]` (counts are one each) and on the concrete
out-of-bracket state `freshR` (core operation fails with
`RuntimeNotReadyError`). -/
theorem runtime_bracket_witness :
    ([REvent.initEvent, REvent.coreOp, REvent.finalizeEvent].count
        REvent.initEvent = 1 ∧
      [REvent.initEvent, REvent.coreOp, REvent.finalizeEvent].count
        REvent.finalizeEvent = 1) ∧
    rstep RState.freshR REvent.coreOp =
      Except.error RError.runtimeNotReady := by
  have h := runtime_bracket
  exact ⟨h.2.1 [REvent.initEvent, REvent.coreOp, REvent.finalizeEvent] rfl,
         h.2.2 RState.freshR (by decide)⟩
